import Mathlib

/-!
# Verification of `go-timekit` (`conversion.go`)

A shallow embedding of the date/time conversion helpers of the `timekit`
Go package, together with proofs about their behaviour.

Modelling conventions:
* Go's `time.Time` is modelled by `TimeKit.Time`: Unix seconds (`Int`),
  a nanosecond remainder in `[0, 10^9)` (`Nat`), and a `Location`
  carrying the zone offset in seconds east of UTC.
* Go's signed integer `/` and `%` truncate toward zero; they are modelled
  by `Int.tdiv` / `Int.tmod`.  Lean's `/` and `%` on `Int` (Euclidean
  division, which agrees with floor division for the positive literal
  divisors used here) appear only where the modelled Go code itself
  performs a floor-style computation.
* The host's local time zone is a parameter (`localLoc`) wherever the Go
  code uses `time.Local` implicitly.
-/

namespace TimeKit

/-- Characterisation of Go's truncated division/remainder for a positive
divisor, packaged for `omega` (which treats `Int.tdiv`/`Int.tmod` as atoms). -/
theorem tdiv_tmod_char (a b : Int) (hb : 0 < b) :
    b * a.tdiv b + a.tmod b = a ∧ a.tmod b < b ∧ -b < a.tmod b ∧
    (0 ≤ a → 0 ≤ a.tmod b) ∧ (a ≤ 0 → a.tmod b ≤ 0) := by
  refine ⟨Int.tdiv_add_tmod a b, Int.tmod_lt_of_pos a hb, ?_, fun ha => Int.tmod_nonneg b ha, ?_⟩
  · rcases le_or_lt 0 a with ha | ha
    · have := Int.tmod_nonneg b ha
      omega
    · have h1 : a.tmod b = -((-a).tmod b) := by
        rw [Int.tmod_def, Int.tmod_def]
        have : (-a).tdiv b = -(a.tdiv b) := Int.neg_tdiv a b
        rw [this]
        ring
      have h2 : (-a).tmod b < b := Int.tmod_lt_of_pos (-a) hb
      omega
  · intro ha
    rcases eq_or_lt_of_le ha with ha' | ha'
    · subst ha'
      simp
    · have h1 : a.tmod b = -((-a).tmod b) := by
        rw [Int.tmod_def, Int.tmod_def]
        have : (-a).tdiv b = -(a.tdiv b) := Int.neg_tdiv a b
        rw [this]
        ring
      have h2 : 0 ≤ (-a).tmod b := Int.tmod_nonneg b (by omega)
      omega

/-- A time zone, reduced to its offset in seconds east of UTC
(Go `time.Location`; the zone name plays no observable role here). -/
structure Location where
  offset : Int
  deriving DecidableEq, Repr

/-- The UTC location (offset 0). -/
def Location.utc : Location := ⟨0⟩

/-- Go `time.Time`: an absolute instant (Unix seconds plus a nanosecond
remainder in `[0, 10^9)`) together with a location. -/
structure Time where
  sec : Int
  nsec : Nat
  loc : Location
  deriving DecidableEq, Repr

/-- Nanoseconds elapsed since the Unix epoch (absolute position of the
instant; derived observable, independent of the location). -/
def epochNanos (t : Time) : Int := t.sec * 1000000000 + t.nsec

/-- Go `time.Unix sec nsec`: builds a `Time` in the local zone, normalising
`nsec` into `[0, 10^9)` exactly as Go does (truncated division followed by
a sign fix-up). -/
def goTimeUnix (localLoc : Location) (sec nsec : Int) : Time :=
  if nsec < 0 ∨ 1000000000 ≤ nsec then
    if nsec - nsec.tdiv 1000000000 * 1000000000 < 0 then
      ⟨sec + nsec.tdiv 1000000000 - 1,
       (nsec - nsec.tdiv 1000000000 * 1000000000 + 1000000000).toNat, localLoc⟩
    else
      ⟨sec + nsec.tdiv 1000000000,
       (nsec - nsec.tdiv 1000000000 * 1000000000).toNat, localLoc⟩
  else ⟨sec, nsec.toNat, localLoc⟩

/-- Go `t.Unix()`: whole seconds since the Unix epoch. -/
def Time.unix (t : Time) : Int := t.sec

/-- `ParseJavaScriptTime` from `conversion.go`:
`time.Unix(i/1000, (i%1000)*1000*1000)` with Go's truncated `/` and `%`. -/
def ParseJavaScriptTime (localLoc : Location) (i : Int) : Time :=
  goTimeUnix localLoc (i.tdiv 1000) ((i.tmod 1000) * 1000 * 1000)

/-- `ToJavaScriptTime` from `conversion.go`: `t.Unix()`. -/
def ToJavaScriptTime (t : Time) : Int := t.unix

theorem goTimeUnix_epochNanos (localLoc : Location) (sec nsec : Int) :
    epochNanos (goTimeUnix localLoc sec nsec) = sec * 1000000000 + nsec ∧
    (goTimeUnix localLoc sec nsec).nsec < 1000000000 ∧
    (goTimeUnix localLoc sec nsec).loc = localLoc := by
  unfold goTimeUnix epochNanos
  have h := tdiv_tmod_char nsec 1000000000 (by norm_num)
  have hmod : nsec - nsec.tdiv 1000000000 * 1000000000 = nsec.tmod 1000000000 := by
    omega
  split
  · split <;> refine ⟨by simp only []; omega, by simp only []; omega, rfl⟩
  · exact ⟨by simp only []; omega, by simp only []; omega, rfl⟩

/-- C2: `ToJavaScriptTime` (spec name `ToEpochMillis`) returns the number of
whole seconds elapsed since the Unix epoch — the floor of the instant's
position in seconds — not milliseconds, and it is a total function (no
error path, witnessed by its plain function type). -/
theorem C2_toJavaScriptTime_seconds (t : Time) (hn : t.nsec < 1000000000) :
    ToJavaScriptTime t = epochNanos t / 1000000000 := by
  unfold ToJavaScriptTime Time.unix epochNanos
  omega

theorem C2_toJavaScriptTime_seconds_witness :
    (⟨1609459200, 500, Location.utc⟩ : Time).nsec < 1000000000 ∧
    ToJavaScriptTime (⟨1609459200, 500, Location.utc⟩ : Time) =
      epochNanos (⟨1609459200, 500, Location.utc⟩ : Time) / 1000000000 :=
  ⟨by decide, C2_toJavaScriptTime_seconds ⟨1609459200, 500, Location.utc⟩ (by decide)⟩

/-- C3: `ParseJavaScriptTime i` builds (via Go `time.Unix`) an instant in the
local time zone from whole seconds `i / 1000` (Go truncated division) and
remainder nanoseconds `(i % 1000) * 1_000_000` (Go truncated remainder);
it has no error path and the resulting instant sits exactly `i`
milliseconds after the Unix epoch, with a well-formed nanosecond field. -/
theorem C3_parseJavaScriptTime_correct (localLoc : Location) (i : Int) :
    ParseJavaScriptTime localLoc i =
      goTimeUnix localLoc (i.tdiv 1000) ((i.tmod 1000) * 1000 * 1000) ∧
    epochNanos (ParseJavaScriptTime localLoc i) = i * 1000000 ∧
    (ParseJavaScriptTime localLoc i).loc = localLoc ∧
    (ParseJavaScriptTime localLoc i).nsec < 1000000000 := by
  have h := goTimeUnix_epochNanos localLoc (i.tdiv 1000) ((i.tmod 1000) * 1000 * 1000)
  have hc := tdiv_tmod_char i 1000 (by norm_num)
  refine ⟨rfl, ?_, h.2.2, h.2.1⟩
  show epochNanos (goTimeUnix localLoc (i.tdiv 1000) ((i.tmod 1000) * 1000 * 1000)) = _
  rw [h.1]
  have : 1000 * i.tdiv 1000 + i.tmod 1000 = i := hc.1
  nlinarith [this]

/-- C9: composing `ParseJavaScriptTime` with `ToJavaScriptTime` divides the
millisecond input by 1000 rounded toward negative infinity (Lean's `/` on
`Int` with a positive divisor is floor division), including for negative
inputs that are not multiples of 1000. -/
theorem C9_roundtrip_floor_div (localLoc : Location) (i : Int) :
    ToJavaScriptTime (ParseJavaScriptTime localLoc i) = i / 1000 := by
  have h3 := C3_parseJavaScriptTime_correct localLoc i
  have h2 := C2_toJavaScriptTime_seconds (ParseJavaScriptTime localLoc i) h3.2.2.2
  rw [h2, h3.2.1]
  omega

/-! ## Month abbreviation lookup

Go's `time.Month` is an integer type with `January = 1`; both lookup maps
live at package level outside `src/conversion.go`, so they are modelled
from the spec. -/

/-- Go `time.January` (`time.Month` is an integer type with January = 1). -/
def goJanuary : Int := 1

/-- Modelled from the spec: the package-level `monthAbbreviations` map (its
definition is not under `src/`), keyed by `time.Month` January..December
with the 3-letter values `"Jan"`..`"Dec"`. -/
def monthAbbreviations (m : Int) : Option String :=
  if m = 1 then some "Jan" else if m = 2 then some "Feb"
  else if m = 3 then some "Mar" else if m = 4 then some "Apr"
  else if m = 5 then some "May" else if m = 6 then some "Jun"
  else if m = 7 then some "Jul" else if m = 8 then some "Aug"
  else if m = 9 then some "Sep" else if m = 10 then some "Oct"
  else if m = 11 then some "Nov" else if m = 12 then some "Dec"
  else none

/-- Modelled from the spec: the package-level `monthNumberAbbreviations` map
(its definition is not under `src/`), keyed by the integers 1..12 with the
3-letter values `"Jan"`..`"Dec"`. -/
def monthNumberAbbreviations (m : Int) : Option String :=
  monthAbbreviations m

theorem monthAbbreviations_eq_none (m : Int) (hm : m < 1 ∨ 12 < m) :
    monthAbbreviations m = none := by
  unfold monthAbbreviations
  repeat rw [if_neg (by omega)]

/-- `GetMonthAbbreviation` from `conversion.go`: map lookup, empty string
when the key is absent. -/
def GetMonthAbbreviation (month : Int) : String :=
  match monthAbbreviations month with
  | none => ""
  | some abbreviation => abbreviation

/-- `GetMonthAbbreviationByInt` from `conversion.go`: map lookup, empty
string when the key is absent. -/
def GetMonthAbbreviationByInt (month : Int) : String :=
  match monthNumberAbbreviations month with
  | none => ""
  | some abbreviation => abbreviation

/-- C8: `GetMonthAbbreviationByInt` returns the 3-letter English
abbreviation for each integer 1..12 and the empty string (never an error
or a panic — it is total) for every integer outside 1..12; likewise
`GetMonthAbbreviation` returns `"Jan"` for January and the empty string
for any non-valid month value. -/
theorem C8_month_abbreviation_lookup (m : Int) :
    GetMonthAbbreviationByInt 1 = "Jan" ∧ GetMonthAbbreviationByInt 2 = "Feb" ∧
    GetMonthAbbreviationByInt 3 = "Mar" ∧ GetMonthAbbreviationByInt 4 = "Apr" ∧
    GetMonthAbbreviationByInt 5 = "May" ∧ GetMonthAbbreviationByInt 6 = "Jun" ∧
    GetMonthAbbreviationByInt 7 = "Jul" ∧ GetMonthAbbreviationByInt 8 = "Aug" ∧
    GetMonthAbbreviationByInt 9 = "Sep" ∧ GetMonthAbbreviationByInt 10 = "Oct" ∧
    GetMonthAbbreviationByInt 11 = "Nov" ∧ GetMonthAbbreviationByInt 12 = "Dec" ∧
    GetMonthAbbreviation goJanuary = "Jan" ∧
    ((m < 1 ∨ 12 < m) →
      GetMonthAbbreviationByInt m = "" ∧ GetMonthAbbreviation m = "") := by
  refine ⟨rfl, rfl, rfl, rfl, rfl, rfl, rfl, rfl, rfl, rfl, rfl, rfl, rfl, ?_⟩
  intro hm
  unfold GetMonthAbbreviationByInt GetMonthAbbreviation monthNumberAbbreviations
  rw [monthAbbreviations_eq_none m hm]
  exact ⟨rfl, rfl⟩

theorem C8_month_abbreviation_lookup_witness :
    GetMonthAbbreviationByInt 1 = "Jan" ∧ GetMonthAbbreviationByInt 13 = "" ∧
    GetMonthAbbreviationByInt 0 = "" := by
  refine ⟨(C8_month_abbreviation_lookup 13).1, ?_, ?_⟩
  · exact ((C8_month_abbreviation_lookup 13).2.2.2.2.2.2.2.2.2.2.2.2.2 (by norm_num)).1
  · exact ((C8_month_abbreviation_lookup 0).2.2.2.2.2.2.2.2.2.2.2.2.2 (by norm_num)).1

/-! ## Civil calendar computation

Models Go `time`'s proleptic-Gregorian date computation (`absDate` /
`daysSinceEpoch`, which Go's `t.Date()` and `time.Date` use): an era split
into 400-year cycles followed by Go's century / 4-year / year cascade with
the `n -= n >> 2` clamps, and the March-based month split.  Days are
counted from the Unix epoch (1970-01-01 = day 0). -/

/-- 400-year era of a day count (era origin 0000-03-01, hence the 719468
shift from the Unix epoch). -/
def eraOf (z : Int) : Int := (z + 719468) / 146097

/-- Day of era, in `[0, 146097)`. -/
def doeOf (z : Int) : Int := (z + 719468) % 146097

/-- Century within the era (Go `absDate`: `n := d / 36524; n -= n >> 2`). -/
def centuryOfEra (doe : Int) : Int := doe / 36524 - doe / 36524 / 4

/-- Days remaining after the century split, in `[0, 36524]`. -/
def remCentury (doe : Int) : Int := doe - 36524 * centuryOfEra doe

/-- 4-year cycle within the century. -/
def quadOf (doe : Int) : Int := remCentury doe / 1461

/-- Days remaining after the 4-year split, in `[0, 1460]`. -/
def remQuad (doe : Int) : Int := remCentury doe - 1461 * quadOf doe

/-- Year within the 4-year cycle (Go `absDate`: `n := d / 365; n -= n >> 2`). -/
def yearInQuad (doe : Int) : Int := remQuad doe / 365 - remQuad doe / 365 / 4

/-- Day of the March-based year, in `[0, 365]`. -/
def doyOf (doe : Int) : Int := remQuad doe - 365 * yearInQuad doe

/-- Year of the era, in `[0, 399]`. -/
def yoeOf (doe : Int) : Int := 100 * centuryOfEra doe + 4 * quadOf doe + yearInQuad doe

/-- March-based month index in `[0, 11]` (March = 0). -/
def mpOf (doe : Int) : Int := (5 * doyOf doe + 2) / 153

/-- Day of month, in `[1, 31]`. -/
def domOf (doe : Int) : Int := doyOf doe - (153 * mpOf doe + 2) / 5 + 1

/-- Calendar month in `[1, 12]`. -/
def monthOf (doe : Int) : Int := if mpOf doe < 10 then mpOf doe + 3 else mpOf doe - 9

/-- Day count since the Unix epoch to calendar `(year, month, day)`. -/
def civilFromDays (z : Int) : Int × Int × Int :=
  (eraOf z * 400 + yoeOf (doeOf z) + (if monthOf (doeOf z) ≤ 2 then 1 else 0),
   monthOf (doeOf z), domOf (doeOf z))

/-- March-based year used by `daysFromCivil` (January and February belong
to the preceding March-based year). -/
def dfcYear (y m : Int) : Int := y - (if m ≤ 2 then 1 else 0)

/-- March-based month index of a calendar month. -/
def mpOfMonth (m : Int) : Int := if 2 < m then m - 3 else m + 9

/-- Calendar `(year, month, day)` to days since the Unix epoch (Go
`daysSinceEpoch` plus the in-year day offset); linear in `d`, as in Go,
so out-of-range days roll over. -/
def daysFromCivil (y m d : Int) : Int :=
  dfcYear y m / 400 * 146097
  + 36524 * (dfcYear y m % 400 / 100) + 1461 * (dfcYear y m % 400 % 100 / 4)
  + 365 * (dfcYear y m % 400 % 4)
  + (153 * mpOfMonth m + 2) / 5 + d - 1 - 719468

theorem civilFromDays_epoch : civilFromDays 0 = (1970, 1, 1) := by decide

theorem civilFromDays_sample : civilFromDays 18628 = (2021, 1, 1) := by decide

theorem civilFromDays_leap : civilFromDays 11016 = (2000, 2, 29) := by decide

theorem cascade_facts (doe : Int) (h0 : 0 ≤ doe) (h1 : doe < 146097) :
    0 ≤ centuryOfEra doe ∧ centuryOfEra doe ≤ 3 ∧
    0 ≤ quadOf doe ∧ quadOf doe ≤ 24 ∧
    0 ≤ yearInQuad doe ∧ yearInQuad doe ≤ 3 ∧
    0 ≤ doyOf doe ∧ doyOf doe ≤ 365 ∧
    36524 * centuryOfEra doe + 1461 * quadOf doe + 365 * yearInQuad doe + doyOf doe = doe := by
  unfold doyOf yearInQuad remQuad quadOf remCentury centuryOfEra
  omega

theorem mp_dom_facts (doe : Int) (h0 : 0 ≤ doe) (h1 : doe < 146097) :
    0 ≤ mpOf doe ∧ mpOf doe ≤ 11 ∧
    1 ≤ domOf doe ∧ domOf doe ≤ 31 ∧
    (153 * mpOf doe + 2) / 5 + domOf doe - 1 = doyOf doe := by
  have h := cascade_facts doe h0 h1
  unfold domOf mpOf
  omega

theorem month_facts (doe : Int) (h0 : 0 ≤ doe) (h1 : doe < 146097) :
    1 ≤ monthOf doe ∧ monthOf doe ≤ 12 ∧ mpOfMonth (monthOf doe) = mpOf doe ∧
    ((monthOf doe ≤ 2) ↔ 10 ≤ mpOf doe) := by
  have h := mp_dom_facts doe h0 h1
  unfold monthOf mpOfMonth
  split_ifs <;> omega

theorem doeOf_facts (z : Int) :
    0 ≤ doeOf z ∧ doeOf z < 146097 ∧ 146097 * eraOf z + doeOf z = z + 719468 := by
  unfold eraOf doeOf
  omega

/-- The civil decomposition is a section of `daysFromCivil`: converting a
day count to `(year, month, day)` and back is the identity. -/
theorem daysFromCivil_civilFromDays (z : Int) :
    daysFromCivil (civilFromDays z).1 (civilFromDays z).2.1 (civilFromDays z).2.2 = z := by
  have hdoe := doeOf_facts z
  have hc := cascade_facts (doeOf z) hdoe.1 hdoe.2.1
  have hmd := mp_dom_facts (doeOf z) hdoe.1 hdoe.2.1
  have hm := month_facts (doeOf z) hdoe.1 hdoe.2.1
  show daysFromCivil
      (eraOf z * 400 + yoeOf (doeOf z) + (if monthOf (doeOf z) ≤ 2 then 1 else 0))
      (monthOf (doeOf z)) (domOf (doeOf z)) = z
  have e1 : dfcYear
      (eraOf z * 400 + yoeOf (doeOf z) + (if monthOf (doeOf z) ≤ 2 then 1 else 0))
      (monthOf (doeOf z)) = yoeOf (doeOf z) + eraOf z * 400 := by
    unfold dfcYear
    split_ifs <;> omega
  have hyoe : 0 ≤ yoeOf (doeOf z) ∧ yoeOf (doeOf z) ≤ 399 := by
    unfold yoeOf
    omega
  have e2 : (yoeOf (doeOf z) + eraOf z * 400) / 400 = eraOf z := by omega
  have e3 : (yoeOf (doeOf z) + eraOf z * 400) % 400 = yoeOf (doeOf z) := by omega
  have e4 : yoeOf (doeOf z) / 100 = centuryOfEra (doeOf z) := by
    unfold yoeOf
    omega
  have e5 : yoeOf (doeOf z) % 100 / 4 = quadOf (doeOf z) := by
    have h1 : yoeOf (doeOf z) % 100 = 4 * quadOf (doeOf z) + yearInQuad (doeOf z) := by
      unfold yoeOf
      omega
    rw [h1]
    omega
  have e6 : yoeOf (doeOf z) % 4 = yearInQuad (doeOf z) := by
    unfold yoeOf
    omega
  unfold daysFromCivil
  rw [e1, e2, e3, e4, e5, e6, hm.2.2.1]
  omega

/-! ## Reading civil fields from a `Time`, and `time.Date` -/

/-- Seconds since epoch shifted into the instant's zone (Go computes civil
fields from this "local" second count). -/
def Time.locSec (t : Time) : Int := t.sec + t.loc.offset

/-- The day count (since the Unix epoch) containing the instant, in its zone. -/
def Time.civilDay (t : Time) : Int := t.locSec / 86400

/-- Go `t.Year()`. -/
def Time.year (t : Time) : Int := (civilFromDays t.civilDay).1

/-- Go `t.Month()` (as its integer value, January = 1). -/
def Time.month (t : Time) : Int := (civilFromDays t.civilDay).2.1

/-- Go `t.Day()`. -/
def Time.day (t : Time) : Int := (civilFromDays t.civilDay).2.2

/-- Second of day in the instant's zone, in `[0, 86400)`. -/
def Time.sod (t : Time) : Int := t.locSec % 86400

/-- Go `t.Hour()`. -/
def Time.hour (t : Time) : Int := t.sod / 3600

/-- Go `t.Minute()`. -/
def Time.minute (t : Time) : Int := t.sod % 3600 / 60

/-- Go `t.Second()`. -/
def Time.second (t : Time) : Int := t.sod % 60

/-- Go `t.Nanosecond()`. -/
def Time.nanosecond (t : Time) : Nat := t.nsec

/-- Go `time.Date(year, month, day, hour, min, sec, nsec, loc)`.  Go first
floor-normalises month into `[1, 12]` (adjusting the year) and nanoseconds
into `[0, 10^9)` (adjusting the seconds); the remaining `norm` calls move
overflow between sec/min/hour/day and are value-preserving because
`daysFromCivil` is linear in the day, so the absolute position is the
linear combination below. -/
def goDate (year month day hour min sec nsec : Int) (loc : Location) : Time :=
  ⟨daysFromCivil (year + (month - 1) / 12) ((month - 1) % 12 + 1) day * 86400
     + hour * 3600 + min * 60 + sec + nsec / 1000000000 - loc.offset,
   (nsec % 1000000000).toNat, loc⟩

/-- `To1AM` from `conversion.go`:
`time.Date(t.Year(), t.Month(), t.Day(), 1, 0, 0, 0, t.Location())`. -/
def To1AM (t : Time) : Time :=
  goDate t.year t.month t.day 1 0 0 0 t.loc

theorem to1AM_spec (t : Time) :
    (To1AM t).sec = t.civilDay * 86400 + 3600 - t.loc.offset ∧
    (To1AM t).year = t.year ∧ (To1AM t).month = t.month ∧ (To1AM t).day = t.day ∧
    (To1AM t).loc = t.loc ∧ (To1AM t).hour = 1 ∧ (To1AM t).minute = 0 ∧
    (To1AM t).second = 0 ∧ (To1AM t).nsec = 0 := by
  have hdoe := doeOf_facts t.civilDay
  have hm := month_facts (doeOf t.civilDay) hdoe.1 hdoe.2.1
  have hmonth : 1 ≤ t.month ∧ t.month ≤ 12 := ⟨hm.1, hm.2.1⟩
  have hnorm1 : (t.month - 1) / 12 = 0 := by omega
  have hnorm2 : (t.month - 1) % 12 + 1 = t.month := by omega
  have key : daysFromCivil t.year t.month t.day = t.civilDay :=
    daysFromCivil_civilFromDays t.civilDay
  have hsec : (To1AM t).sec = t.civilDay * 86400 + 3600 - t.loc.offset := by
    have h0 : (To1AM t).sec =
        daysFromCivil (t.year + (t.month - 1) / 12) ((t.month - 1) % 12 + 1) t.day * 86400
          + 1 * 3600 + 0 * 60 + 0 + (0 : Int) / 1000000000 - t.loc.offset := rfl
    rw [h0, hnorm1, hnorm2]
    simp only [add_zero]
    rw [key]
    norm_num
  have hloc : (To1AM t).loc = t.loc := rfl
  have hlocSec : (To1AM t).locSec = t.civilDay * 86400 + 3600 := by
    have h0 : (To1AM t).locSec = (To1AM t).sec + (To1AM t).loc.offset := rfl
    rw [h0, hsec, hloc]
    ring
  have hday : (To1AM t).civilDay = t.civilDay := by
    have h0 : (To1AM t).civilDay = (To1AM t).locSec / 86400 := rfl
    rw [h0, hlocSec]
    omega
  have hsod : (To1AM t).sod = 3600 := by
    have h0 : (To1AM t).sod = (To1AM t).locSec % 86400 := rfl
    rw [h0, hlocSec]
    omega
  refine ⟨hsec, ?_, ?_, ?_, hloc, ?_, ?_, ?_, rfl⟩
  · show (civilFromDays (To1AM t).civilDay).1 = t.year
    rw [hday]
    rfl
  · show (civilFromDays (To1AM t).civilDay).2.1 = t.month
    rw [hday]
    rfl
  · show (civilFromDays (To1AM t).civilDay).2.2 = t.day
    rw [hday]
    rfl
  · show (To1AM t).sod / 3600 = 1
    rw [hsod]
    decide
  · show (To1AM t).sod % 3600 / 60 = 0
    rw [hsod]
    decide
  · show (To1AM t).sod % 60 = 0
    rw [hsod]
    decide

/-- C7: `To1AM t` agrees with `t` on year, month, day and location, while
its hour is 1 and its minute, second and sub-second fields are 0.  (The
embedding is purely functional, so `t` itself is unchanged.) -/
theorem C7_to1AM_fields (t : Time) :
    (To1AM t).year = t.year ∧ (To1AM t).month = t.month ∧ (To1AM t).day = t.day ∧
    (To1AM t).loc = t.loc ∧ (To1AM t).hour = 1 ∧ (To1AM t).minute = 0 ∧
    (To1AM t).second = 0 ∧ (To1AM t).nanosecond = 0 := by
  have h := to1AM_spec t
  exact ⟨h.2.1, h.2.2.1, h.2.2.2.1, h.2.2.2.2.1, h.2.2.2.2.2.1, h.2.2.2.2.2.2.1,
    h.2.2.2.2.2.2.2.1, h.2.2.2.2.2.2.2.2⟩

/-- C10: `To1AM` is idempotent. -/
theorem C10_to1AM_idempotent (t : Time) :
    To1AM (To1AM t) = To1AM t := by
  have h := to1AM_spec t
  show goDate (To1AM t).year (To1AM t).month (To1AM t).day 1 0 0 0 (To1AM t).loc = To1AM t
  rw [h.2.1, h.2.2.1, h.2.2.2.1, h.2.2.2.2.1]
  rfl

/-! ## Decimal integer strings

Models Go `strconv`: `FormatInt(i, 10)` (used to state "the decimal string
form of `i`") and `ParseInt(s, 10, 64)` (used by
`ParseJavaScriptTimeString`). -/

/-- The decimal digit character for `n < 10`. -/
def digitChar (n : Nat) : Char :=
  match n with
  | 0 => '0' | 1 => '1' | 2 => '2' | 3 => '3' | 4 => '4'
  | 5 => '5' | 6 => '6' | 7 => '7' | 8 => '8' | _ => '9'

/-- Decimal digit characters of `n`, most significant first, with explicit
fuel (structural recursion, so that it computes by kernel reduction; the
fuel `n + 1` always suffices since `n / 10 < n`). -/
def natDigitsAux : Nat → Nat → List Char
  | 0, _ => []
  | fuel + 1, n =>
    if n < 10 then [digitChar n]
    else natDigitsAux fuel (n / 10) ++ [digitChar (n % 10)]

/-- Decimal digit characters of `n`, most significant first. -/
def natDigits (n : Nat) : List Char := natDigitsAux (n + 1) n

/-- ASCII decimal digit test (Go checks `'0' <= c && c <= '9'`). -/
def isDigitChar (c : Char) : Bool := decide ('0' ≤ c) && decide (c ≤ '9')

/-- Numeric value of an ASCII digit character. -/
def digitVal (c : Char) : Nat := c.toNat - 48

/-- Value of a digit string, most significant first. -/
def digitsVal (l : List Char) : Nat := l.foldl (fun acc c => acc * 10 + digitVal c) 0

theorem digitChar_spec (n : Nat) (h : n < 10) :
    isDigitChar (digitChar n) = true ∧ digitVal (digitChar n) = n := by
  interval_cases n <;> exact ⟨by decide, by decide⟩

theorem digitsVal_snoc (l : List Char) (c : Char) :
    digitsVal (l ++ [c]) = digitsVal l * 10 + digitVal c := by
  unfold digitsVal
  rw [List.foldl_append]
  rfl

theorem natDigitsAux_succ (fuel n : Nat) :
    natDigitsAux (fuel + 1) n =
      if n < 10 then [digitChar n]
      else natDigitsAux fuel (n / 10) ++ [digitChar (n % 10)] := rfl

theorem natDigitsAux_spec (fuel : Nat) :
    ∀ n, n < fuel → natDigitsAux fuel n ≠ [] ∧
      (∀ c ∈ natDigitsAux fuel n, isDigitChar c = true) ∧
      digitsVal (natDigitsAux fuel n) = n := by
  induction fuel with
  | zero => intro n hn; omega
  | succ fuel ih =>
    intro n hn
    rw [natDigitsAux_succ]
    by_cases h : n < 10
    · rw [if_pos h]
      have hd := digitChar_spec n h
      refine ⟨by simp, ?_, ?_⟩
      · intro c hc
        simp at hc
        rw [hc]
        exact hd.1
      · show digitsVal ([] ++ [digitChar n]) = n
        rw [digitsVal_snoc]
        show 0 * 10 + digitVal (digitChar n) = n
        rw [hd.2]
        omega
    · rw [if_neg h]
      have ih1 := ih (n / 10) (by omega)
      have hd := digitChar_spec (n % 10) (by omega)
      refine ⟨by simp [ih1.1], ?_, ?_⟩
      · intro c hc
        rw [List.mem_append] at hc
        rcases hc with hc | hc
        · exact ih1.2.1 c hc
        · simp at hc
          rw [hc]
          exact hd.1
      · rw [digitsVal_snoc, ih1.2.2, hd.2]
        omega

theorem natDigits_spec (n : Nat) :
    natDigits n ≠ [] ∧ (∀ c ∈ natDigits n, isDigitChar c = true) ∧
    digitsVal (natDigits n) = n :=
  natDigitsAux_spec (n + 1) n (by omega)

theorem isDigitChar_not_sign (c : Char) (h : isDigitChar c = true) :
    c ≠ '-' ∧ c ≠ '+' := by
  unfold isDigitChar at h
  simp only [Bool.and_eq_true, decide_eq_true_eq] at h
  constructor <;> rintro rfl <;> simp [Char.le_def] at h

/-- Go `strconv.ParseInt` error kinds (`ErrSyntax` / `ErrRange`). -/
inductive NumError where
  | invalid : NumError
  | outOfRange : NumError
  deriving DecidableEq, Repr

/-- Digit-scanning half of Go `strconv.ParseInt(s, 10, 64)`: the remaining
characters must be one or more decimal digits, and the signed value must
fit in int64 (otherwise `ErrRange`). -/
def goParseIntCore (neg : Bool) (ds : List Char) : Except NumError Int :=
  if ds = [] then .error .invalid
  else if ds.all isDigitChar then
    if neg then
      if 9223372036854775808 < (digitsVal ds : Int) then .error .outOfRange
      else .ok (-(digitsVal ds : Int))
    else
      if 9223372036854775808 ≤ (digitsVal ds : Int) then .error .outOfRange
      else .ok (digitsVal ds : Int)
  else .error .invalid

/-- Go `strconv.ParseInt(s, 10, 64)`: optional sign, then decimal digits. -/
def goParseInt (s : String) : Except NumError Int :=
  match s.data with
  | [] => .error .invalid
  | c :: cs =>
    if c = '-' then goParseIntCore true cs
    else if c = '+' then goParseIntCore false cs
    else goParseIntCore false (c :: cs)

/-- Go `strconv.FormatInt(i, 10)`: minus sign for negative values, then the
decimal digits. -/
def formatInt (i : Int) : String :=
  if i < 0 then ⟨'-' :: natDigits (-i).toNat⟩ else ⟨natDigits i.toNat⟩

/-- `ParseJavaScriptTimeString` from `conversion.go`: `strconv.ParseInt`
then `time.Unix(i/1000, (i%1000)*1000*1000)`; on parse failure it returns
`time.Now()` (modelled by the explicit `now` argument) with the error. -/
def ParseJavaScriptTimeString (now : Time) (localLoc : Location) (s : String) :
    Time × Option NumError :=
  match goParseInt s with
  | .error e => (now, some e)
  | .ok i => (goTimeUnix localLoc (i.tdiv 1000) ((i.tmod 1000) * 1000 * 1000), none)

theorem goParseInt_formatInt (i : Int)
    (h1 : -9223372036854775808 ≤ i) (h2 : i < 9223372036854775808) :
    goParseInt (formatInt i) = .ok i := by
  by_cases hneg : i < 0
  · rw [formatInt, if_pos hneg]
    show goParseInt ⟨'-' :: natDigits (-i).toNat⟩ = .ok i
    have hstep : goParseInt ⟨'-' :: natDigits (-i).toNat⟩ =
        goParseIntCore true (natDigits (-i).toNat) := rfl
    rw [hstep]
    have hnd := natDigits_spec (-i).toNat
    rw [goParseIntCore, if_neg hnd.1]
    have hall : (natDigits (-i).toNat).all isDigitChar = true := by
      rw [List.all_eq_true]
      exact hnd.2.1
    rw [if_pos hall, if_pos rfl, hnd.2.2]
    have hv : ((-i).toNat : Int) = -i := by omega
    have hrange : ¬ (9223372036854775808 : Int) < -i := by omega
    rw [hv, if_neg hrange]
    norm_num
  · rw [formatInt, if_neg hneg]
    show goParseInt ⟨natDigits i.toNat⟩ = .ok i
    have hnd := natDigits_spec i.toNat
    obtain ⟨c, cs, hcons⟩ : ∃ c cs, natDigits i.toNat = c :: cs := by
      cases hx : natDigits i.toNat with
      | nil => exact absurd hx hnd.1
      | cons c cs => exact ⟨c, cs, rfl⟩
    have hcd : isDigitChar c = true := hnd.2.1 c (by rw [hcons]; exact List.mem_cons_self c cs)
    have hcsign := isDigitChar_not_sign c hcd
    have hstep : goParseInt ⟨natDigits i.toNat⟩ =
        (if c = '-' then goParseIntCore true cs
         else if c = '+' then goParseIntCore false cs
         else goParseIntCore false (c :: cs)) := by
      rw [goParseInt]
      have hs : (⟨natDigits i.toNat⟩ : String).data = c :: cs := hcons
      rw [hs]
    rw [hstep, if_neg hcsign.1, if_neg hcsign.2, ← hcons]
    rw [goParseIntCore, if_neg hnd.1]
    have hall : (natDigits i.toNat).all isDigitChar = true := by
      rw [List.all_eq_true]
      exact hnd.2.1
    rw [if_pos hall, hnd.2.2]
    have hv : (i.toNat : Int) = i := by omega
    have hrange : ¬ (9223372036854775808 : Int) ≤ i := by omega
    rw [hv, if_neg hrange]
    rfl

/-- C4: for every int64 value `i`, `ParseJavaScriptTimeString` applied to
the decimal string form of `i` returns the same instant as
`ParseJavaScriptTime i` with a nil error; and whenever the string does not
parse as a base-10 signed 64-bit integer (e.g. `"abc"`), it returns the
parse error paired with the current instant (the placeholder) — it never
panics, being a total function. -/
theorem C4_parseJavaScriptTimeString (now : Time) (localLoc : Location) (i : Int)
    (h1 : -9223372036854775808 ≤ i) (h2 : i < 9223372036854775808) :
    ParseJavaScriptTimeString now localLoc (formatInt i) =
      (ParseJavaScriptTime localLoc i, none) ∧
    ParseJavaScriptTimeString now localLoc "abc" = (now, some NumError.invalid) ∧
    (∀ s : String, ∀ e : NumError, goParseInt s = .error e →
      ParseJavaScriptTimeString now localLoc s = (now, some e)) := by
  refine ⟨?_, ?_, ?_⟩
  · rw [ParseJavaScriptTimeString, goParseInt_formatInt i h1 h2]
    rfl
  · rfl
  · intro s e he
    rw [ParseJavaScriptTimeString, he]

theorem C4_parseJavaScriptTimeString_witness :
    ParseJavaScriptTimeString ⟨0, 0, Location.utc⟩ Location.utc (formatInt 1609459200000) =
      (ParseJavaScriptTime Location.utc 1609459200000, none) ∧
    ParseJavaScriptTimeString ⟨0, 0, Location.utc⟩ Location.utc "abc" =
      (⟨0, 0, Location.utc⟩, some NumError.invalid) :=
  ⟨(C4_parseJavaScriptTimeString ⟨0, 0, Location.utc⟩ Location.utc 1609459200000
      (by norm_num) (by norm_num)).1,
   (C4_parseJavaScriptTimeString ⟨0, 0, Location.utc⟩ Location.utc 1609459200000
      (by norm_num) (by norm_num)).2.1⟩

/-! ## HH:MM:SS duration parsing

`ParseHourMinuteSecondDurationString` delegates to `hhmmss.Parse` from the
external `github.com/dannav/hhmmss` dependency, whose source is not under
`src/`; it is modelled from the spec. -/

/-- Split a character list at every `':'` (the colon-separated fields of
an `HH:MM:SS` string). -/
def splitColon : List Char → List (List Char)
  | [] => [[]]
  | c :: cs =>
    if c = ':' then [] :: splitColon cs
    else
      match splitColon cs with
      | [] => [[c]]
      | p :: ps => (c :: p) :: ps

/-- Error kind for a malformed duration string. -/
inductive DurationError where
  | invalid : DurationError
  deriving DecidableEq, Repr

/-- Modelled from the spec: `hhmmss.Parse` (external dependency, source not
under `src/`): a string of the exact shape `HH:MM:SS` — three
colon-separated, non-empty, all-numeric fields — yields the duration of
that many hours, minutes and seconds (a Go `time.Duration` counts
nanoseconds); every other string is a parse error. -/
def hhmmssFields (hh mm ss : List Char) : Except DurationError Int :=
  if (!hh.isEmpty && hh.all isDigitChar) && (!mm.isEmpty && mm.all isDigitChar)
      && (!ss.isEmpty && ss.all isDigitChar) then
    .ok (((digitsVal hh * 3600 + digitsVal mm * 60 + digitsVal ss) : Int) * 1000000000)
  else .error .invalid

/-- Modelled from the spec (continued): dispatch on the colon split. -/
def hhmmssParse (s : String) : Except DurationError Int :=
  match splitColon s.data with
  | [hh, mm, ss] => hhmmssFields hh mm ss
  | _ => .error .invalid

/-- `ParseHourMinuteSecondDurationString` from `conversion.go`:
`hhmmss.Parse(s)`. -/
def ParseHourMinuteSecondDurationString (s : String) : Except DurationError Int :=
  hhmmssParse s

/-- C6: `ParseHourMinuteSecondDurationString` maps a colon-separated
all-numeric `"HH:MM:SS"` string to the duration of that many hours,
minutes and seconds — in particular `"08:30:00"` yields exactly 8 hours
30 minutes (30600 seconds, in nanoseconds) with no error — and returns a
parse error for every string not of that shape, such as `"bad"`. -/
theorem C6_parseHourMinuteSecondDuration (s : String) :
    ParseHourMinuteSecondDurationString "08:30:00" =
      .ok ((8 * 3600 + 30 * 60) * 1000000000) ∧
    ParseHourMinuteSecondDurationString "bad" = .error .invalid ∧
    (∀ hh mm ss : List Char, splitColon s.data = [hh, mm, ss] →
      (!hh.isEmpty && hh.all isDigitChar) = true →
      (!mm.isEmpty && mm.all isDigitChar) = true →
      (!ss.isEmpty && ss.all isDigitChar) = true →
      ParseHourMinuteSecondDurationString s =
        .ok (((digitsVal hh * 3600 + digitsVal mm * 60 + digitsVal ss) : Int) * 1000000000)) ∧
    (∀ hh mm ss : List Char, splitColon s.data = [hh, mm, ss] →
      ((!hh.isEmpty && hh.all isDigitChar) = false ∨
       (!mm.isEmpty && mm.all isDigitChar) = false ∨
       (!ss.isEmpty && ss.all isDigitChar) = false) →
      ParseHourMinuteSecondDurationString s = .error .invalid) ∧
    (∀ parts : List (List Char), splitColon s.data = parts →
      (∀ hh mm ss : List Char, parts ≠ [hh, mm, ss]) →
      ParseHourMinuteSecondDurationString s = .error .invalid) := by
  have hstep : ∀ hh mm ss : List Char, splitColon s.data = [hh, mm, ss] →
      hhmmssParse s = hhmmssFields hh mm ss := by
    intro hh mm ss hsplit
    rw [hhmmssParse, hsplit]
  refine ⟨by rfl, by rfl, ?_, ?_, ?_⟩
  · intro hh mm ss hsplit hd1 hd2 hd3
    show hhmmssParse s = _
    rw [hstep hh mm ss hsplit, hhmmssFields, if_pos]
    rw [hd1, hd2, hd3]
    rfl
  · intro hh mm ss hsplit hbad
    show hhmmssParse s = _
    rw [hstep hh mm ss hsplit, hhmmssFields, if_neg]
    rcases hbad with hb | hb | hb <;> rw [hb] <;> simp
  · intro parts hsplit hne
    show hhmmssParse s = _
    rw [hhmmssParse, hsplit]
    match parts, hne with
    | [], _ => rfl
    | [_], _ => rfl
    | [_, _], _ => rfl
    | [a, b, c], hne => exact absurd rfl (hne a b c)
    | _ :: _ :: _ :: _ :: _, _ => rfl

theorem C6_parseHourMinuteSecondDuration_witness :
    ParseHourMinuteSecondDurationString "01:02:03" =
      .ok ((1 * 3600 + 2 * 60 + 3) * 1000000000) := by
  have h := (C6_parseHourMinuteSecondDuration "01:02:03").2.2.1
    ['0', '1'] ['0', '2'] ['0', '3'] (by rfl) (by rfl) (by rfl) (by rfl)
  rw [h]
  rfl

/-! ## ISO 8601 / RFC 3339

`ToISO8601String` is Go `t.Format(time.RFC3339)` (layout
`"2006-01-02T15:04:05Z07:00"`): civil fields zero-padded, `Z` for a zero
offset, otherwise a sign and the offset in whole minutes as `hh:mm`
(offset seconds are discarded — Go computes `offset / 60` minutes).
`ParseISO8601String` delegates to `iso8601.ParseString` from the external
`github.com/relvacode/iso8601` dependency, whose source is not under
`src/`; it is modelled from the spec as an ISO 8601 (superset of
RFC 3339) parser. -/

/-- Decimal digits of `n` left-padded with zeros to width `w`
(Go `appendInt` padding). -/
def padNat (w : Nat) (n : Nat) : List Char :=
  List.replicate (w - (natDigits n).length) '0' ++ natDigits n

/-- Zone suffix of Go's RFC 3339 layout chunk `"Z07:00"`: `Z` when the
offset is zero, otherwise sign and whole minutes as `hh:mm`. -/
def isoZone (off : Int) : List Char :=
  if off = 0 then ['Z']
  else (if off < 0 then '-' else '+')
    :: (padNat 2 (off.natAbs / 60 / 60) ++ ':' :: padNat 2 (off.natAbs / 60 % 60))

/-- Everything after the (signed, padded) year in the RFC 3339 output. -/
def isoDateTail (t : Time) : List Char :=
  '-' :: padNat 2 t.month.toNat ++ '-' :: padNat 2 t.day.toNat
  ++ 'T' :: padNat 2 t.hour.toNat ++ ':' :: padNat 2 t.minute.toNat
  ++ ':' :: padNat 2 t.second.toNat ++ isoZone t.loc.offset

/-- `ToISO8601String` from `conversion.go`: `t.Format(time.RFC3339)`. -/
def ToISO8601String (t : Time) : String :=
  ⟨(if t.year < 0 then ['-'] else []) ++ padNat 4 t.year.natAbs ++ isoDateTail t⟩

/-- Longest digit prefix and the remainder. -/
def takeDigits : List Char → List Char × List Char
  | [] => ([], [])
  | c :: cs =>
    if isDigitChar c then
      match takeDigits cs with
      | (ds, r) => (c :: ds, r)
    else ([], c :: cs)

/-- One or more digits, returned as their value. -/
def parseNum (l : List Char) : Option (Nat × List Char) :=
  match takeDigits l with
  | ([], _) => none
  | (ds, r) => some (digitsVal ds, r)

/-- Exactly two digits, returned as their value. -/
def parse2 (l : List Char) : Option (Nat × List Char) :=
  match l with
  | c1 :: c2 :: r =>
    if isDigitChar c1 && isDigitChar c2 then some (digitVal c1 * 10 + digitVal c2, r)
    else none
  | _ => none

/-- A single expected character. -/
def expectChar (c : Char) (l : List Char) : Option (List Char) :=
  match l with
  | x :: r => if x = c then some r else none
  | _ => none

/-- Optional fractional-second part: nanoseconds from up to 9 fractional
digits (extra digits truncated, missing digits are zeros). -/
def parseFrac (l : List Char) : Option (Nat × List Char) :=
  match l with
  | '.' :: r =>
    match takeDigits r with
    | ([], _) => none
    | (ds, rr) => some (digitsVal (List.take 9 (ds ++ List.replicate (9 - ds.length) '0')), rr)
  | _ => some (0, l)

/-- Hours (one or more digits), a colon, and a two-digit minute field of a
zone offset, as seconds. -/
def parseZoneHM (l : List Char) : Option (Int × List Char) :=
  (parseNum l).bind fun ph =>
  (expectChar ':' ph.2).bind fun r2 =>
  (parse2 r2).bind fun pm =>
  some ((ph.1 : Int) * 3600 + pm.1 * 60, pm.2)

/-- Zone designator: `Z`, or a sign followed by `hh:mm`. -/
def parseZoneDes (l : List Char) : Option (Int × List Char) :=
  match l with
  | 'Z' :: r => some (0, r)
  | '+' :: r => parseZoneHM r
  | '-' :: r => (parseZoneHM r).bind fun p => some (-p.1, p.2)
  | _ => none

/-- Assemble the parsed fields when they are in calendar range. -/
def isoMake (neg : Bool) (y mo d h mi s ns : Nat) (off : Int) : Option Time :=
  if 1 ≤ mo ∧ mo ≤ 12 ∧ 1 ≤ d ∧ d ≤ 31 ∧ h ≤ 23 ∧ mi ≤ 59 ∧ s ≤ 59 then
    some ⟨daysFromCivil (if neg then -(y : Int) else (y : Int)) mo d * 86400
            + h * 3600 + mi * 60 + s - off, ns, ⟨off⟩⟩
  else none

/-- The optional leading year sign. -/
def parseYearSign (l : List Char) : Bool × List Char :=
  match l with
  | c :: r => if c = '-' then (true, r) else (false, c :: r)
  | [] => (false, [])

/-- Modelled from the spec: `iso8601.ParseString` (external dependency,
source not under `src/`), an ISO 8601 parser accepting the RFC 3339
profile with varying fractional-second precision and `Z`/signed-offset
zones: `[-]Y+-MM-DDThh:mm:ss[.f+](Z|±h+:mm)`. -/
def parseISO8601 (l : List Char) : Option Time :=
  (parseNum (parseYearSign l).2).bind fun py =>
  (expectChar '-' py.2).bind fun l2 =>
  (parse2 l2).bind fun pmo =>
  (expectChar '-' pmo.2).bind fun l4 =>
  (parse2 l4).bind fun pd =>
  (expectChar 'T' pd.2).bind fun l6 =>
  (parse2 l6).bind fun ph =>
  (expectChar ':' ph.2).bind fun l8 =>
  (parse2 l8).bind fun pmi =>
  (expectChar ':' pmi.2).bind fun l10 =>
  (parse2 l10).bind fun ps =>
  (parseFrac ps.2).bind fun pns =>
  (parseZoneDes pns.2).bind fun poff =>
  if poff.2 = [] then
    isoMake (parseYearSign l).1 py.1 pmo.1 pd.1 ph.1 pmi.1 ps.1 pns.1 poff.1
  else none

/-- Parse error kind for a malformed ISO 8601 string. -/
inductive IsoError where
  | invalid : IsoError
  deriving DecidableEq, Repr

/-- `ParseISO8601String` from `conversion.go`: `iso8601.ParseString(s)`. -/
def ParseISO8601String (s : String) : Except IsoError Time :=
  match parseISO8601 s.data with
  | some t => .ok t
  | none => .error .invalid

theorem takeDigits_exact (ds r : List Char)
    (hds : ∀ c ∈ ds, isDigitChar c = true)
    (hr : ∀ c cs, r = c :: cs → isDigitChar c = false) :
    takeDigits (ds ++ r) = (ds, r) := by
  induction ds with
  | nil =>
    simp only [List.nil_append]
    cases r with
    | nil => rfl
    | cons c cs =>
      have hc := hr c cs rfl
      simp [takeDigits, hc]
  | cons d ds ih =>
    have hd := hds d (List.mem_cons_self d ds)
    have ihh := ih (fun c hc => hds c (List.mem_cons_of_mem d hc))
    simp only [List.cons_append]
    simp [takeDigits, hd, ihh]

theorem digitsVal_replicate_zero (j : Nat) (l : List Char) :
    digitsVal (List.replicate j '0' ++ l) = digitsVal l := by
  induction j with
  | zero => rfl
  | succ j ih =>
    show digitsVal ('0' :: (List.replicate j '0' ++ l)) = digitsVal l
    unfold digitsVal at ih ⊢
    rw [List.foldl_cons]
    have ha : 0 * 10 + digitVal '0' = 0 := by decide
    rw [ha]
    exact ih

theorem padNat_spec (w n : Nat) :
    padNat w n ≠ [] ∧ (∀ c ∈ padNat w n, isDigitChar c = true) ∧
    digitsVal (padNat w n) = n := by
  have hnd := natDigits_spec n
  unfold padNat
  refine ⟨by simp [hnd.1], ?_, ?_⟩
  · intro c hc
    rw [List.mem_append] at hc
    rcases hc with hc | hc
    · rw [List.eq_of_mem_replicate hc]
      decide
    · exact hnd.2.1 c hc
  · rw [digitsVal_replicate_zero]
    exact hnd.2.2

theorem parseNum_exact (ds r : List Char) (h1 : ds ≠ [])
    (h2 : ∀ c ∈ ds, isDigitChar c = true)
    (hr : ∀ c cs, r = c :: cs → isDigitChar c = false) :
    parseNum (ds ++ r) = some (digitsVal ds, r) := by
  rw [parseNum, takeDigits_exact ds r h2 hr]
  cases ds with
  | nil => exact absurd rfl h1
  | cons d ds => rfl

theorem parseNum_pad (w n : Nat) (r : List Char)
    (hr : ∀ c cs, r = c :: cs → isDigitChar c = false) :
    parseNum (padNat w n ++ r) = some (n, r) := by
  have hp := padNat_spec w n
  rw [parseNum_exact _ _ hp.1 hp.2.1 hr, hp.2.2]

theorem natDigitsAux_lt_ten (fuel n : Nat) (hf : 1 ≤ fuel) (h : n < 10) :
    natDigitsAux fuel n = [digitChar n] := by
  cases fuel with
  | zero => omega
  | succ fuel => rw [natDigitsAux_succ, if_pos h]

theorem natDigits_lt_ten (n : Nat) (h : n < 10) : natDigits n = [digitChar n] := by
  rw [natDigits, natDigitsAux_succ, if_pos h]

theorem natDigits_two (n : Nat) (h1 : 10 ≤ n) (h2 : n < 100) :
    natDigits n = [digitChar (n / 10), digitChar (n % 10)] := by
  rw [natDigits, natDigitsAux_succ, if_neg (by omega),
    natDigitsAux_lt_ten n (n / 10) (by omega) (by omega)]
  rfl

theorem padNat2_eq (n : Nat) (h : n < 100) :
    padNat 2 n =
      if n < 10 then ['0', digitChar n]
      else [digitChar (n / 10), digitChar (n % 10)] := by
  by_cases h10 : n < 10
  · rw [if_pos h10]
    unfold padNat
    rw [natDigits_lt_ten n h10]
    rfl
  · rw [if_neg h10]
    unfold padNat
    rw [natDigits_two n (by omega) h]
    rfl

theorem parse2_pad (n : Nat) (h : n < 100) (r : List Char) :
    parse2 (padNat 2 n ++ r) = some (n, r) := by
  rw [padNat2_eq n h]
  by_cases h10 : n < 10
  · rw [if_pos h10]
    have hd := digitChar_spec n h10
    show (if isDigitChar '0' && isDigitChar (digitChar n) then
        some (digitVal '0' * 10 + digitVal (digitChar n), r) else none) = some (n, r)
    have h0 : isDigitChar '0' = true := by decide
    rw [h0, hd.1, if_pos (show (true && true) = true from rfl), hd.2]
    have h1 : digitVal '0' = 0 := by decide
    rw [h1]
    norm_num
  · rw [if_neg h10]
    have hd1 := digitChar_spec (n / 10) (by omega)
    have hd2 := digitChar_spec (n % 10) (by omega)
    show (if isDigitChar (digitChar (n / 10)) && isDigitChar (digitChar (n % 10)) then
        some (digitVal (digitChar (n / 10)) * 10 + digitVal (digitChar (n % 10)), r)
      else none) = some (n, r)
    rw [hd1.1, hd2.1, if_pos (show (true && true) = true from rfl), hd1.2, hd2.2]
    have hv : n / 10 * 10 + n % 10 = n := by omega
    rw [hv]

theorem expectChar_cons (c : Char) (r : List Char) :
    expectChar c (c :: r) = some r := by
  show (if c = c then some r else none) = some r
  rw [if_pos rfl]

theorem parseZoneHM_pad (hh mm : Nat) (hmm : mm < 100) :
    parseZoneHM (padNat 2 hh ++ ':' :: padNat 2 mm) =
      some ((hh : Int) * 3600 + mm * 60, []) := by
  rw [parseZoneHM, parseNum_pad 2 hh (':' :: padNat 2 mm) (by intro c cs hc; cases hc; decide)]
  simp only [Option.some_bind]
  rw [expectChar_cons]
  simp only [Option.some_bind]
  have h2 : parse2 (padNat 2 mm ++ []) = some (mm, []) := parse2_pad mm hmm []
  rw [List.append_nil] at h2
  rw [h2]
  simp only [Option.some_bind]

theorem parseZoneDes_isoZone (off : Int) (hmod : off % 60 = 0) :
    parseZoneDes (isoZone off) = some (off, []) := by
  unfold isoZone
  by_cases h0 : off = 0
  · rw [if_pos h0, h0]
    rfl
  · rw [if_neg h0]
    have hhm := parseZoneHM_pad (off.natAbs / 60 / 60) (off.natAbs / 60 % 60)
      (by omega)
    have hval : ((off.natAbs / 60 / 60 : Nat) : Int) * 3600 + ((off.natAbs / 60 % 60 : Nat) : Int) * 60 =
        (off.natAbs : Int) := by
      omega
    by_cases hneg : off < 0
    · rw [if_pos hneg]
      show (parseZoneHM (padNat 2 (off.natAbs / 60 / 60) ++ ':' :: padNat 2 (off.natAbs / 60 % 60))).bind
          (fun p => some (-p.1, p.2)) = some (off, [])
      rw [hhm]
      simp only [Option.some_bind]
      have : -((off.natAbs / 60 / 60 : Nat) * 3600 + (off.natAbs / 60 % 60 : Nat) * 60 : Int) = off := by
        omega
      rw [this]
    · rw [if_neg hneg]
      show parseZoneHM (padNat 2 (off.natAbs / 60 / 60) ++ ':' :: padNat 2 (off.natAbs / 60 % 60)) =
          some (off, [])
      rw [hhm]
      have : ((off.natAbs / 60 / 60 : Nat) * 3600 + (off.natAbs / 60 % 60 : Nat) * 60 : Int) = off := by
        omega
      rw [this]

theorem head_not_digit (x : Char) (hx : isDigitChar x = false) (l : List Char) :
    ∀ c cs, x :: l = c :: cs → isDigitChar c = false := by
  intro c cs h
  injection h with h1 _
  rw [← h1]
  exact hx

theorem parseFrac_isoZone (off : Int) :
    parseFrac (isoZone off) = some (0, isoZone off) := by
  unfold isoZone
  split_ifs <;> rfl

set_option maxHeartbeats 2000000 in
theorem parseISO8601_aux (t : Time) (hoff : t.loc.offset % 60 = 0)
    (neg : Bool) (l : List Char)
    (hsign : parseYearSign l = (neg, padNat 4 t.year.natAbs ++ isoDateTail t))
    (hy : (if neg then -((t.year.natAbs : Nat) : Int) else ((t.year.natAbs : Nat) : Int))
            = t.year) :
    parseISO8601 l = some ⟨t.sec, 0, ⟨t.loc.offset⟩⟩ := by
  have hdoe := doeOf_facts t.civilDay
  have hmd := mp_dom_facts _ hdoe.1 hdoe.2.1
  have hmf := month_facts _ hdoe.1 hdoe.2.1
  have hmo : 1 ≤ t.month ∧ t.month ≤ 12 := ⟨hmf.1, hmf.2.1⟩
  have hda : 1 ≤ t.day ∧ t.day ≤ 31 := ⟨hmd.2.2.1, hmd.2.2.2.1⟩
  have hsod : 0 ≤ t.sod ∧ t.sod < 86400 := by
    unfold Time.sod
    omega
  have hhr : 0 ≤ t.hour ∧ t.hour ≤ 23 := by
    unfold Time.hour
    omega
  have hmi : 0 ≤ t.minute ∧ t.minute ≤ 59 := by
    unfold Time.minute
    omega
  have hse : 0 ≤ t.second ∧ t.second ≤ 59 := by
    unfold Time.second
    omega
  have hkey : daysFromCivil t.year t.month t.day = t.civilDay :=
    daysFromCivil_civilFromDays t.civilDay
  unfold parseISO8601
  rw [hsign]
  simp only [Option.some_bind]
  unfold isoDateTail
  simp only [List.cons_append, List.append_assoc]
  rw [parseNum_pad 4 t.year.natAbs _ (head_not_digit '-' (by decide) _)]
  simp only [Option.some_bind]
  rw [expectChar_cons]
  simp only [Option.some_bind]
  rw [parse2_pad t.month.toNat (by omega) _]
  simp only [Option.some_bind]
  rw [expectChar_cons]
  simp only [Option.some_bind]
  rw [parse2_pad t.day.toNat (by omega) _]
  simp only [Option.some_bind]
  rw [expectChar_cons]
  simp only [Option.some_bind]
  rw [parse2_pad t.hour.toNat (by omega) _]
  simp only [Option.some_bind]
  rw [expectChar_cons]
  simp only [Option.some_bind]
  rw [parse2_pad t.minute.toNat (by omega) _]
  simp only [Option.some_bind]
  rw [expectChar_cons]
  simp only [Option.some_bind]
  rw [parse2_pad t.second.toNat (by omega) _]
  simp only [Option.some_bind]
  rw [parseFrac_isoZone]
  simp only [Option.some_bind]
  rw [parseZoneDes_isoZone t.loc.offset hoff]
  simp only [Option.some_bind]
  simp only [if_true]
  rw [isoMake, if_pos (by omega)]
  have c2 : ((t.month.toNat : Nat) : Int) = t.month := by omega
  have c3 : ((t.day.toNat : Nat) : Int) = t.day := by omega
  have c4 : ((t.hour.toNat : Nat) : Int) = t.hour := by omega
  have c5 : ((t.minute.toNat : Nat) : Int) = t.minute := by omega
  have c6 : ((t.second.toNat : Nat) : Int) = t.second := by omega
  rw [hy, c2, c3, c4, c5, c6, hkey]
  have hsec : t.civilDay * 86400 + t.hour * 3600 + t.minute * 60 + t.second
      - t.loc.offset = t.sec := by
    unfold Time.hour Time.minute Time.second Time.sod Time.civilDay Time.locSec
    omega
  rw [hsec]

/-- The claim C1 as stated is false: an instant whose zone offset is not a
whole number of minutes (Go `time.FixedZone` allows this) does not
round-trip, because the RFC 3339 output discards the offset's seconds.
At `t = ⟨0, 0, offset 3661s⟩` the output is
`"1970-01-01T01:01:01+01:01"`, which parses back to second 1, not 0. -/
theorem C1_iso8601_not_roundtrip_cex :
    ToISO8601String ⟨0, 0, ⟨3661⟩⟩ = "1970-01-01T01:01:01+01:01" ∧
    ParseISO8601String (ToISO8601String ⟨0, 0, ⟨3661⟩⟩) =
      .ok ⟨1, 0, ⟨3660⟩⟩ ∧
    (1 : Int) ≠ (⟨0, 0, ⟨3661⟩⟩ : Time).sec ∧ (3660 : Int) ≠ (3661 : Int) := by
  refine ⟨by rfl, by rfl, by decide, by decide⟩

/-- C1 (amended): for every instant `t` whose zone offset is a whole
number of minutes, `ParseISO8601String (ToISO8601String t)` succeeds and
returns exactly `t` truncated to whole seconds, preserving `t`'s time
zone offset; `ToISO8601String` produces the RFC 3339 form
`YYYY-MM-DDTHH:MM:SS` followed by `Z` or `±HH:MM`. -/
theorem C1_iso8601_roundtrip (t : Time) (hoff : t.loc.offset % 60 = 0) :
    ParseISO8601String (ToISO8601String t) = .ok ⟨t.sec, 0, t.loc⟩ := by
  have hstep : parseISO8601 (ToISO8601String t).data = some ⟨t.sec, 0, ⟨t.loc.offset⟩⟩ := by
    have hdata : (ToISO8601String t).data =
        (if t.year < 0 then ['-'] else []) ++ padNat 4 t.year.natAbs ++ isoDateTail t := rfl
    by_cases hneg : t.year < 0
    · rw [hdata, if_pos hneg]
      apply parseISO8601_aux t hoff true
      · show parseYearSign ('-' :: (padNat 4 t.year.natAbs ++ isoDateTail t)) = _
        show (if '-' = '-' then (true, padNat 4 t.year.natAbs ++ isoDateTail t)
              else (false, '-' :: (padNat 4 t.year.natAbs ++ isoDateTail t))) = _
        rw [if_pos rfl]
      · show -((t.year.natAbs : Nat) : Int) = t.year
        omega
    · rw [hdata, if_neg hneg]
      have hp4 := padNat_spec 4 t.year.natAbs
      obtain ⟨c, cs, hc⟩ : ∃ c cs, padNat 4 t.year.natAbs = c :: cs := by
        cases hx : padNat 4 t.year.natAbs with
        | nil => exact absurd hx hp4.1
        | cons c cs => exact ⟨c, cs, rfl⟩
      have hcd : isDigitChar c = true := hp4.2.1 c (by rw [hc]; exact List.mem_cons_self c cs)
      apply parseISO8601_aux t hoff false
      · rw [List.nil_append, hc, List.cons_append]
        show (if c = '-' then (true, cs ++ isoDateTail t)
              else (false, c :: (cs ++ isoDateTail t))) = _
        rw [if_neg (isDigitChar_not_sign c hcd).1, ← List.cons_append, ← hc]
      · show ((t.year.natAbs : Nat) : Int) = t.year
        omega
  rw [ParseISO8601String, hstep]

theorem C1_iso8601_roundtrip_witness :
    (⟨1609459200, 123456789, ⟨-18000⟩⟩ : Time).loc.offset % 60 = 0 ∧
    ParseISO8601String (ToISO8601String ⟨1609459200, 123456789, ⟨-18000⟩⟩) =
      .ok ⟨1609459200, 0, ⟨-18000⟩⟩ :=
  ⟨by decide, C1_iso8601_roundtrip ⟨1609459200, 123456789, ⟨-18000⟩⟩ (by decide)⟩

/-! ## Bubble.io fixed-format parsing

`ParseBubbleTime` is Go `time.Parse("Jan _2, 2006 15:04 am", s)`.  In
Go's layout grammar the chunks are: `"Jan"` (abbreviated month name,
matched case-insensitively), literal `" "`, `"_2"` (day: one optional
extra leading space, then one or two digits), literal `", "`, `"2006"`
(exactly four year digits), literal `" "`, `"15"` (hour on a 24-hour
clock, one or two digits, range-checked to 0..23), literal `":"`, `"04"`
(exactly two minute digits, range-checked), and — since `"am"` is not a
layout chunk — the literal text `" am"`.  The day is range-checked
against the month length and the result is built in UTC. -/

/-- Go `isLeap`. -/
def isLeapYear (y : Int) : Bool :=
  decide (y % 4 = 0) && (decide (y % 100 ≠ 0) || decide (y % 400 = 0))

/-- Go `daysIn(m, year)`: the number of days of month `m` in `year`. -/
def daysIn (m : Nat) (y : Int) : Nat :=
  if m = 2 then (if isLeapYear y then 29 else 28)
  else if m = 4 ∨ m = 6 ∨ m = 9 ∨ m = 11 then 30
  else 31

/-- Case-insensitive match of three characters against the twelve
abbreviated English month names (Go's `lookup` over `shortMonthNames`
folds ASCII case). -/
def monthAbbrevIndex (c1 c2 c3 : Char) : Option Nat :=
  if (c1 == 'J' || c1 == 'j') && (c2 == 'A' || c2 == 'a') && (c3 == 'N' || c3 == 'n') then some 1
  else if (c1 == 'F' || c1 == 'f') && (c2 == 'E' || c2 == 'e') && (c3 == 'B' || c3 == 'b') then some 2
  else if (c1 == 'M' || c1 == 'm') && (c2 == 'A' || c2 == 'a') && (c3 == 'R' || c3 == 'r') then some 3
  else if (c1 == 'A' || c1 == 'a') && (c2 == 'P' || c2 == 'p') && (c3 == 'R' || c3 == 'r') then some 4
  else if (c1 == 'M' || c1 == 'm') && (c2 == 'A' || c2 == 'a') && (c3 == 'Y' || c3 == 'y') then some 5
  else if (c1 == 'J' || c1 == 'j') && (c2 == 'U' || c2 == 'u') && (c3 == 'N' || c3 == 'n') then some 6
  else if (c1 == 'J' || c1 == 'j') && (c2 == 'U' || c2 == 'u') && (c3 == 'L' || c3 == 'l') then some 7
  else if (c1 == 'A' || c1 == 'a') && (c2 == 'U' || c2 == 'u') && (c3 == 'G' || c3 == 'g') then some 8
  else if (c1 == 'S' || c1 == 's') && (c2 == 'E' || c2 == 'e') && (c3 == 'P' || c3 == 'p') then some 9
  else if (c1 == 'O' || c1 == 'o') && (c2 == 'C' || c2 == 'c') && (c3 == 'T' || c3 == 't') then some 10
  else if (c1 == 'N' || c1 == 'n') && (c2 == 'O' || c2 == 'o') && (c3 == 'V' || c3 == 'v') then some 11
  else if (c1 == 'D' || c1 == 'd') && (c2 == 'E' || c2 == 'e') && (c3 == 'C' || c3 == 'c') then some 12
  else none

/-- The `"Jan"` layout chunk: three characters naming a month. -/
def parseBubbleMonth (l : List Char) : Option (Nat × List Char) :=
  match l with
  | c1 :: c2 :: c3 :: r => (monthAbbrevIndex c1 c2 c3).map fun m => (m, r)
  | _ => none

/-- Go `getnum(value, false)`: one or two digits (two when available). -/
def getnum2 (l : List Char) : Option (Nat × List Char) :=
  match l with
  | c1 :: c2 :: r =>
    if isDigitChar c1 && isDigitChar c2 then some (digitVal c1 * 10 + digitVal c2, r)
    else if isDigitChar c1 then some (digitVal c1, c2 :: r)
    else none
  | [c1] => if isDigitChar c1 then some (digitVal c1, []) else none
  | [] => none

/-- The `"_2"` layout chunk: skip one extra leading space, then
`getnum(value, false)`. -/
def parseUnderDay (l : List Char) : Option (Nat × List Char) :=
  match l with
  | c :: r => if c = ' ' then getnum2 r else getnum2 (c :: r)
  | [] => none

/-- The `"2006"` layout chunk: exactly four digits. -/
def parse4 (l : List Char) : Option (Nat × List Char) :=
  match l with
  | c1 :: c2 :: c3 :: c4 :: r =>
    if isDigitChar c1 && isDigitChar c2 && isDigitChar c3 && isDigitChar c4 then
      some (((digitVal c1 * 10 + digitVal c2) * 10 + digitVal c3) * 10 + digitVal c4, r)
    else none
  | _ => none

/-- Final stage of the Bubble parse: the literal `"am"` suffix, end of
input, Go's hour/minute/day range checks, and `Date(..., UTC)`. -/
def bubbleFinish (m d y h mi : Nat) (l6 : List Char) : Option Time :=
  (expectChar 'a' l6).bind fun l7 =>
  (expectChar 'm' l7).bind fun l8 =>
  if l8 = [] ∧ h ≤ 23 ∧ mi ≤ 59 ∧ 1 ≤ d ∧ d ≤ daysIn m (y : Int) then
    some (goDate (y : Int) (m : Int) (d : Int) (h : Int) (mi : Int) 0 0 Location.utc)
  else none

/-- Clock stage of the Bubble parse: `"15"` (one or two hour digits),
literal `":"`, `"04"` (two minute digits), literal `" "`. -/
def bubbleClock (m d y : Nat) (l4 : List Char) : Option Time :=
  (getnum2 l4).bind fun ph =>
  (expectChar ':' ph.2).bind fun l5 =>
  (parse2 l5).bind fun pmin =>
  (expectChar ' ' pmin.2).bind fun l6 =>
  bubbleFinish m d y ph.1 pmin.1 l6

/-- `ParseBubbleTime`'s parse: the layout chunks of
`"Jan _2, 2006 15:04 am"` in sequence — month, literal `" "`,
underscore-day, literal `", "`, four year digits, literal `" "`, then
the clock stage. -/
def parseBubble (l : List Char) : Option Time :=
  (parseBubbleMonth l).bind fun pm =>
  (expectChar ' ' pm.2).bind fun l1 =>
  (parseUnderDay l1).bind fun pd =>
  (expectChar ',' pd.2).bind fun l2 =>
  (expectChar ' ' l2).bind fun l3 =>
  (parse4 l3).bind fun py =>
  (expectChar ' ' py.2).bind fun l4 =>
  bubbleClock pm.1 pd.1 py.1 l4

/-- Parse error kind for a malformed Bubble.io date string. -/
inductive BubbleError where
  | invalid : BubbleError
  deriving DecidableEq, Repr

/-- `ParseBubbleTime` from `conversion.go`:
`time.Parse("Jan _2, 2006 15:04 am", s)`. -/
def ParseBubbleTime (s : String) : Except BubbleError Time :=
  match parseBubble s.data with
  | some t => .ok t
  | none => .error .invalid

/-- A one- or two-digit field with value `v`. -/
def DigitsGroup (dds : List Char) (v : Nat) : Prop :=
  (∃ d1, dds = [d1] ∧ isDigitChar d1 = true ∧ digitVal d1 = v) ∨
  (∃ d1 d2, dds = [d1, d2] ∧ isDigitChar d1 = true ∧ isDigitChar d2 = true ∧
    digitVal d1 * 10 + digitVal d2 = v)

/-- The exact shape of strings `ParseBubbleTime` accepts: a
case-insensitive three-letter month abbreviation; a space, an optional
extra space and a one- or two-digit day; `", "`; exactly four year
digits; a space; a one- or two-digit hour at most 23 (24-hour clock); a
colon; two minute digits at most 59; the literal lowercase suffix
`" am"`; and the day between 1 and the month's length. -/
def BubbleShape (s : String) : Prop :=
  ∃ (c1 c2 c3 : Char) (m : Nat) (sp : Bool) (dds : List Char) (d : Nat)
    (y1 y2 y3 y4 : Char) (y : Nat) (hds : List Char) (h : Nat)
    (n1 n2 : Char) (mi : Nat),
    s.data = c1 :: c2 :: c3 :: ' '
      :: ((if sp then [' '] else []) ++ dds ++ ',' :: ' '
      :: y1 :: y2 :: y3 :: y4 :: ' '
      :: (hds ++ ':' :: n1 :: n2 :: ' ' :: 'a' :: 'm' :: [])) ∧
    monthAbbrevIndex c1 c2 c3 = some m ∧
    DigitsGroup dds d ∧
    isDigitChar y1 = true ∧ isDigitChar y2 = true ∧
    isDigitChar y3 = true ∧ isDigitChar y4 = true ∧
    ((digitVal y1 * 10 + digitVal y2) * 10 + digitVal y3) * 10 + digitVal y4 = y ∧
    DigitsGroup hds h ∧
    isDigitChar n1 = true ∧ isDigitChar n2 = true ∧
    digitVal n1 * 10 + digitVal n2 = mi ∧
    h ≤ 23 ∧ mi ≤ 59 ∧ 1 ≤ d ∧ d ≤ daysIn m (y : Int)

/-- The claim C5 as stated is false in both directions: the layout's
trailing `"am"` is literal text (Go has no lowercase-`am` chunk), so a
`" pm"` string matching the claimed "am/pm suffix" shape is rejected;
and strings deviating from the exact shape — an upper-case month or a
zero-padded day — are accepted, because Go matches month names
case-insensitively and `"_2"` accepts any two digits. -/
theorem C5_parseBubbleTime_cex :
    ParseBubbleTime "Nov 11, 2011 11:00 pm" = .error .invalid ∧
    ParseBubbleTime "Nov 11, 2011 11:00 am" =
      .ok (goDate 2011 11 11 11 0 0 0 Location.utc) ∧
    ParseBubbleTime "NOV 11, 2011 11:00 am" =
      .ok (goDate 2011 11 11 11 0 0 0 Location.utc) ∧
    ParseBubbleTime "Nov 01, 2011 11:00 am" =
      .ok (goDate 2011 11 1 11 0 0 0 Location.utc) ∧
    ParseBubbleTime "Nov 11, 2011 13:00 am" =
      .ok (goDate 2011 11 11 13 0 0 0 Location.utc) := by
  refine ⟨by rfl, by rfl, by rfl, by rfl, by rfl⟩

theorem parseBubbleMonth_cons (c1 c2 c3 : Char) (r : List Char) :
    parseBubbleMonth (c1 :: c2 :: c3 :: r) =
      (monthAbbrevIndex c1 c2 c3).map fun m => (m, r) := rfl

theorem isDigitChar_ne (c x : Char) (hc : isDigitChar c = true)
    (hx : isDigitChar x = false) : c ≠ x := by
  intro h
  subst h
  rw [hc] at hx
  exact Bool.noConfusion hx

theorem parseUnderDay_space (l : List Char) : parseUnderDay (' ' :: l) = getnum2 l := by
  show (if ' ' = ' ' then getnum2 l else getnum2 (' ' :: l)) = getnum2 l
  rw [if_pos rfl]

theorem parseUnderDay_cons (c : Char) (l : List Char) (hc : c ≠ ' ') :
    parseUnderDay (c :: l) = getnum2 (c :: l) := by
  show (if c = ' ' then getnum2 l else getnum2 (c :: l)) = getnum2 (c :: l)
  rw [if_neg hc]

theorem getnum2_one (d1 : Char) (r : List Char) (h1 : isDigitChar d1 = true)
    (hr : ∀ c cs, r = c :: cs → isDigitChar c = false) :
    getnum2 (d1 :: r) = some (digitVal d1, r) := by
  cases r with
  | nil => simp [getnum2, h1]
  | cons c cs =>
    have hc := hr c cs rfl
    simp [getnum2, h1, hc]

theorem getnum2_two (d1 d2 : Char) (r : List Char)
    (h1 : isDigitChar d1 = true) (h2 : isDigitChar d2 = true) :
    getnum2 (d1 :: d2 :: r) = some (digitVal d1 * 10 + digitVal d2, r) := by
  simp [getnum2, h1, h2]

theorem getnum2_group (dds : List Char) (v : Nat) (r : List Char)
    (hg : DigitsGroup dds v)
    (hr : ∀ c cs, r = c :: cs → isDigitChar c = false) :
    getnum2 (dds ++ r) = some (v, r) := by
  rcases hg with ⟨d1, hdd, h1, hv⟩ | ⟨d1, d2, hdd, h1, h2, hv⟩
  · rw [hdd, ← hv]
    exact getnum2_one d1 r h1 hr
  · rw [hdd, ← hv]
    exact getnum2_two d1 d2 r h1 h2

theorem parseUnderDay_group (sp : Bool) (dds : List Char) (v : Nat) (r : List Char)
    (hg : DigitsGroup dds v)
    (hr : ∀ c cs, r = c :: cs → isDigitChar c = false) :
    parseUnderDay ((if sp then [' '] else []) ++ (dds ++ r)) = some (v, r) := by
  have hgg := getnum2_group dds v r hg hr
  cases sp
  · show parseUnderDay ([] ++ (dds ++ r)) = some (v, r)
    rw [List.nil_append]
    rcases hg with ⟨d1, hdd, h1, _⟩ | ⟨d1, d2, hdd, h1, _, _⟩ <;>
      rw [hdd] at hgg ⊢ <;>
      simp only [List.cons_append, List.nil_append] at hgg ⊢ <;>
      rw [parseUnderDay_cons _ _ (isDigitChar_ne d1 ' ' h1 (by decide))] <;>
      exact hgg
  · show parseUnderDay (' ' :: (dds ++ r)) = some (v, r)
    rw [parseUnderDay_space]
    exact hgg

theorem parse4_digits (y1 y2 y3 y4 : Char) (r : List Char)
    (h1 : isDigitChar y1 = true) (h2 : isDigitChar y2 = true)
    (h3 : isDigitChar y3 = true) (h4 : isDigitChar y4 = true) :
    parse4 (y1 :: y2 :: y3 :: y4 :: r) =
      some (((digitVal y1 * 10 + digitVal y2) * 10 + digitVal y3) * 10 + digitVal y4, r) := by
  simp [parse4, h1, h2, h3, h4]

theorem parse2_digits (n1 n2 : Char) (r : List Char)
    (h1 : isDigitChar n1 = true) (h2 : isDigitChar n2 = true) :
    parse2 (n1 :: n2 :: r) = some (digitVal n1 * 10 + digitVal n2, r) := by
  simp [parse2, h1, h2]

theorem expectChar_inv (c : Char) (l r : List Char) (h : expectChar c l = some r) :
    l = c :: r := by
  cases l with
  | nil => cases h
  | cons x xs =>
    have hstep : expectChar c (x :: xs) = if x = c then some xs else none := rfl
    rw [hstep] at h
    split at h
    · rename_i hx
      injection h with h2
      rw [hx, h2]
    · cases h

theorem parseBubbleMonth_inv (l : List Char) (m : Nat) (r : List Char)
    (h : parseBubbleMonth l = some (m, r)) :
    ∃ c1 c2 c3, l = c1 :: c2 :: c3 :: r ∧ monthAbbrevIndex c1 c2 c3 = some m := by
  match l with
  | [] => cases h
  | [c1] => cases h
  | [c1, c2] => cases h
  | c1 :: c2 :: c3 :: rest =>
    rw [parseBubbleMonth_cons] at h
    rw [Option.map_eq_some'] at h
    obtain ⟨a, ha, hab⟩ := h
    injection hab with hm hr
    subst hm
    subst hr
    exact ⟨c1, c2, c3, rfl, ha⟩

theorem parseUnderDay_inv (l : List Char) (p : Nat × List Char)
    (h : parseUnderDay l = some p) :
    ∃ (sp : Bool) (l' : List Char),
      l = (if sp then [' '] else []) ++ l' ∧ getnum2 l' = some p := by
  cases l with
  | nil => cases h
  | cons c r =>
    have hstep : parseUnderDay (c :: r) =
        if c = ' ' then getnum2 r else getnum2 (c :: r) := rfl
    rw [hstep] at h
    split at h
    · rename_i hc
      exact ⟨true, r, by rw [hc]; rfl, h⟩
    · exact ⟨false, c :: r, rfl, h⟩

theorem getnum2_inv (l : List Char) (v : Nat) (r : List Char)
    (h : getnum2 l = some (v, r)) :
    ∃ dds, l = dds ++ r ∧ DigitsGroup dds v := by
  match l with
  | [] => cases h
  | [c1] =>
    have hstep : getnum2 [c1] =
        if isDigitChar c1 = true then some (digitVal c1, []) else none := rfl
    rw [hstep] at h
    split at h
    · rename_i h1
      injection h with hp
      injection hp with hv hr
      subst hr
      exact ⟨[c1], rfl, Or.inl ⟨c1, rfl, h1, hv⟩⟩
    · cases h
  | c1 :: c2 :: rest =>
    have hstep : getnum2 (c1 :: c2 :: rest) =
        if (isDigitChar c1 && isDigitChar c2) = true then
          some (digitVal c1 * 10 + digitVal c2, rest)
        else if isDigitChar c1 = true then some (digitVal c1, c2 :: rest)
        else none := rfl
    rw [hstep] at h
    split at h
    · rename_i h12
      rw [Bool.and_eq_true] at h12
      injection h with hp
      injection hp with hv hr
      subst hr
      exact ⟨[c1, c2], rfl, Or.inr ⟨c1, c2, rfl, h12.1, h12.2, hv⟩⟩
    · split at h
      · rename_i h1
        injection h with hp
        injection hp with hv hr
        subst hr
        exact ⟨[c1], rfl, Or.inl ⟨c1, rfl, h1, hv⟩⟩
      · cases h

theorem parse4_inv (l : List Char) (v : Nat) (r : List Char)
    (h : parse4 l = some (v, r)) :
    ∃ y1 y2 y3 y4, l = y1 :: y2 :: y3 :: y4 :: r ∧
      isDigitChar y1 = true ∧ isDigitChar y2 = true ∧
      isDigitChar y3 = true ∧ isDigitChar y4 = true ∧
      ((digitVal y1 * 10 + digitVal y2) * 10 + digitVal y3) * 10 + digitVal y4 = v := by
  match l with
  | [] => cases h
  | [c1] => cases h
  | [c1, c2] => cases h
  | [c1, c2, c3] => cases h
  | c1 :: c2 :: c3 :: c4 :: rest =>
    have hstep : parse4 (c1 :: c2 :: c3 :: c4 :: rest) =
        if (isDigitChar c1 && isDigitChar c2 && isDigitChar c3 && isDigitChar c4) = true then
          some (((digitVal c1 * 10 + digitVal c2) * 10 + digitVal c3) * 10 + digitVal c4, rest)
        else none := rfl
    rw [hstep] at h
    split at h
    · rename_i h14
      simp only [Bool.and_eq_true] at h14
      injection h with hp
      injection hp with hv hr
      subst hr
      obtain ⟨⟨⟨ha, hb⟩, hc⟩, hd⟩ := h14
      exact ⟨c1, c2, c3, c4, rfl, ha, hb, hc, hd, hv⟩
    · cases h

theorem parse2_inv (l : List Char) (v : Nat) (r : List Char)
    (h : parse2 l = some (v, r)) :
    ∃ n1 n2, l = n1 :: n2 :: r ∧ isDigitChar n1 = true ∧ isDigitChar n2 = true ∧
      digitVal n1 * 10 + digitVal n2 = v := by
  match l with
  | [] => cases h
  | [c1] => cases h
  | c1 :: c2 :: rest =>
    have hstep : parse2 (c1 :: c2 :: rest) =
        if (isDigitChar c1 && isDigitChar c2) = true then
          some (digitVal c1 * 10 + digitVal c2, rest)
        else none := rfl
    rw [hstep] at h
    split at h
    · rename_i h12
      rw [Bool.and_eq_true] at h12
      injection h with hp
      injection hp with hv hr
      subst hr
      exact ⟨c1, c2, rfl, h12.1, h12.2, hv⟩
    · cases h

/-- C5 (amended): `ParseBubbleTime s` succeeds exactly when `s` has the
shape `BubbleShape`: a case-insensitive three-letter English month
abbreviation, a space plus an optional extra space and a one- or
two-digit day, `", "`, exactly four year digits, a space, a one- or
two-digit hour interpreted on a 24-hour clock (0..23) despite the `am`
suffix, a colon, a two-digit minute (00..59), and the literal lowercase
suffix `" am"` (a `"pm"` suffix is rejected), with the day valid for the
month; it returns a parse error for every other string. -/
theorem C5_parseBubbleTime_iff (s : String) :
    (∃ t, ParseBubbleTime s = .ok t) ↔ BubbleShape s := by
  constructor
  · rintro ⟨t, ht⟩
    have hp : ∃ u, parseBubble s.data = some u := by
      unfold ParseBubbleTime at ht
      cases hx : parseBubble s.data with
      | none => rw [hx] at ht; cases ht
      | some u => exact ⟨u, rfl⟩
    obtain ⟨u, hp⟩ := hp
    unfold parseBubble at hp
    obtain ⟨⟨m, r0⟩, hmon0, hp⟩ := Option.bind_eq_some.mp hp
    obtain ⟨c1, c2, c3, hl, hmon⟩ := parseBubbleMonth_inv _ _ _ hmon0
    obtain ⟨l1, hsp0, hp⟩ := Option.bind_eq_some.mp hp
    have hr0 : r0 = ' ' :: l1 := expectChar_inv _ _ _ hsp0
    obtain ⟨⟨d, r1⟩, hday0, hp⟩ := Option.bind_eq_some.mp hp
    obtain ⟨sp, l1', hl1, hg1⟩ := parseUnderDay_inv _ _ hday0
    obtain ⟨dds, hl1e, hdg⟩ := getnum2_inv _ _ _ hg1
    obtain ⟨l2, hc0, hp⟩ := Option.bind_eq_some.mp hp
    have hr1 : r1 = ',' :: l2 := expectChar_inv _ _ _ hc0
    obtain ⟨l3, hc1, hp⟩ := Option.bind_eq_some.mp hp
    have hl2 : l2 = ' ' :: l3 := expectChar_inv _ _ _ hc1
    obtain ⟨⟨y, r2⟩, hy0, hp⟩ := Option.bind_eq_some.mp hp
    obtain ⟨y1, y2, y3, y4, hl3, hy1, hy2, hy3, hy4, hyv⟩ := parse4_inv _ _ _ hy0
    obtain ⟨l4, hc2, hp⟩ := Option.bind_eq_some.mp hp
    have hr2 : r2 = ' ' :: l4 := expectChar_inv _ _ _ hc2
    unfold bubbleClock at hp
    obtain ⟨⟨h, r3⟩, hh0, hp⟩ := Option.bind_eq_some.mp hp
    obtain ⟨hds, hl4, hdg2⟩ := getnum2_inv _ _ _ hh0
    obtain ⟨l5, hc3, hp⟩ := Option.bind_eq_some.mp hp
    have hr3 : r3 = ':' :: l5 := expectChar_inv _ _ _ hc3
    obtain ⟨⟨mi, r4⟩, hmi0, hp⟩ := Option.bind_eq_some.mp hp
    obtain ⟨n1, n2, hl5, hn1, hn2, hnv⟩ := parse2_inv _ _ _ hmi0
    obtain ⟨l6, hc4, hp⟩ := Option.bind_eq_some.mp hp
    have hr4 : r4 = ' ' :: l6 := expectChar_inv _ _ _ hc4
    unfold bubbleFinish at hp
    obtain ⟨l7, hc5, hp⟩ := Option.bind_eq_some.mp hp
    have hl6 : l6 = 'a' :: l7 := expectChar_inv _ _ _ hc5
    obtain ⟨l8, hc6, hp⟩ := Option.bind_eq_some.mp hp
    have hl7 : l7 = 'm' :: l8 := expectChar_inv _ _ _ hc6
    split at hp
    · rename_i hcond
      obtain ⟨hl8, hh23, hmi59, hd1, hdin⟩ := hcond
      refine ⟨c1, c2, c3, m, sp, dds, d, y1, y2, y3, y4, y, hds, h, n1, n2, mi,
        ?_, hmon, hdg, hy1, hy2, hy3, hy4, hyv, hdg2, hn1, hn2, hnv,
        hh23, hmi59, hd1, hdin⟩
      rw [hl, hr0, hl1, hl1e, hr1, hl2, hl3, hr2, hl4, hr3, hl5, hr4, hl6, hl7, hl8]
      simp [List.append_assoc]
    · cases hp
  · rintro ⟨c1, c2, c3, m, sp, dds, d, y1, y2, y3, y4, y, hds, h, n1, n2, mi,
      hdata, hmon, hdg, hy1, hy2, hy3, hy4, hyv, hdg2, hn1, hn2, hnv,
      hh23, hmi59, hd1, hdin⟩
    refine ⟨goDate (y : Int) (m : Int) (d : Int) (h : Int) (mi : Int) 0 0 Location.utc, ?_⟩
    have hpb : parseBubble s.data =
        some (goDate (y : Int) (m : Int) (d : Int) (h : Int) (mi : Int) 0 0
          Location.utc) := by
      rw [hdata]
      unfold parseBubble
      simp only [List.append_assoc]
      rw [parseBubbleMonth_cons, hmon]
      simp only [Option.map_some', Option.some_bind]
      rw [expectChar_cons]
      simp only [Option.some_bind]
      rw [parseUnderDay_group sp dds d _ hdg (head_not_digit ',' (by decide) _)]
      simp only [Option.some_bind]
      rw [expectChar_cons]
      simp only [Option.some_bind]
      rw [expectChar_cons]
      simp only [Option.some_bind]
      rw [parse4_digits _ _ _ _ _ hy1 hy2 hy3 hy4, hyv]
      simp only [Option.some_bind]
      rw [expectChar_cons]
      simp only [Option.some_bind]
      unfold bubbleClock
      rw [getnum2_group hds h _ hdg2 (head_not_digit ':' (by decide) _)]
      simp only [Option.some_bind]
      rw [expectChar_cons]
      simp only [Option.some_bind]
      rw [parse2_digits _ _ _ hn1 hn2, hnv]
      simp only [Option.some_bind]
      rw [expectChar_cons]
      simp only [Option.some_bind]
      unfold bubbleFinish
      rw [expectChar_cons]
      simp only [Option.some_bind]
      rw [expectChar_cons]
      simp only [Option.some_bind]
      rw [if_pos ⟨by trivial, hh23, hmi59, hd1, hdin⟩]
    unfold ParseBubbleTime
    rw [hpb]

end TimeKit
